import Mathlib

/-!
Shallow embedding of the rsh shell interpreter (thimc/rsh) and proofs about
its parser and executor.  Go strings are modeled as lists of characters
(`Str`); the inputs of interest are ASCII, where Go's byte offsets coincide
with character positions.  Filesystem and process effects are modeled by
oracles collected in `Env`: `stat` models `os.Stat` success, `getwd` models
`os.Getwd`, `exit` gives the exit status of a spawned argv, `openOk` models
`os.OpenFile` success, `chdirOk` models `os.Chdir` success.  Goroutines
(the left branch of a `Pipe`, and `Async`) are sequentialized left-then-right;
this only affects trace interleaving, on which no theorem below depends.
Go loops that mutate an index or shrink a string are modeled with a fuel
parameter; the wrappers pass fuel that exceeds the loop's iteration bound
(each iteration strictly shrinks the remaining work), so the fuel-exhausted
branch is unreachable from the wrappers.
-/

namespace Rsh

abbrev Str := List Char

abbrev Args := List Str

def str (s : String) : Str := s.data

/-- `peek` (the operator scanner): scans `ln` rune by rune keeping a `quoted`
and an `escaped` flag.  A backslash always sets `escaped` and is skipped; a
single quote always toggles `quoted` and is skipped; any other rune clears
`escaped` after the match test.  Returns the index of the first match of `ch`
with both flags off.  Faithful to `func peek` of the source. -/
def peekL : Str → Char → Bool → Bool → Option Nat
  | [], _, _, _ => none
  | r :: rest, ch, quoted, escaped =>
    if r = '\\' then (peekL rest ch quoted true).map (· + 1)
    else if r = '\'' then (peekL rest ch (!quoted) escaped).map (· + 1)
    else if r = ch ∧ quoted = false ∧ escaped = false then some 0
    else (peekL rest ch quoted false).map (· + 1)

def peek (ln : Str) (ch : Char) : Option Nat := peekL ln ch false false

/-- `peekany`: tries the candidate characters in order and returns the first
(position, character) hit. -/
def peekany (ln : Str) : Str → Option (Nat × Char)
  | [] => none
  | c :: cs =>
    match peek ln c with
    | some i => some (i, c)
    | none => peekany ln cs

/-- State of the `fields` scanner: pending word list, current word,
quoted / escaped flags, glob-eligible flag.  Faithful to `func fields` of
part_000: note that a backslash inside quotes is appended AND sets the
escaped flag, and that the escaped branch copies the next rune verbatim
without touching the glob flag. -/
def fieldsAux : Str → Args → Str → Bool → Bool → Bool → Args × Bool
  | [], args, arg, _, _, doglob =>
    ((if arg.length > 0 then args ++ [arg] else args), doglob)
  | r :: rest, args, arg, quoted, escaped, doglob =>
    if escaped then fieldsAux rest args (arg ++ [r]) quoted false doglob
    else if r = '\\' then
      fieldsAux rest args (if quoted then arg ++ [r] else arg) quoted true doglob
    else if r = '\'' then fieldsAux rest args arg (!quoted) escaped doglob
    else if r = ' ' then
      if quoted then fieldsAux rest args (arg ++ [r]) quoted escaped doglob
      else if arg.length > 0 then fieldsAux rest (args ++ [arg]) [] quoted escaped doglob
      else fieldsAux rest args [] quoted escaped doglob
    else if r = '*' ∨ r = '?' then
      -- the Go source tests `!escaped && !quoted` here; `escaped` is
      -- necessarily false on this path (it was consumed above)
      fieldsAux rest args (arg ++ [r]) quoted escaped (doglob || !quoted)
    else fieldsAux rest args (arg ++ [r]) quoted escaped doglob

/-- The word-splitting part of `fields`, before the optional glob pass. -/
def fieldsCore (s : Str) : Args × Bool := fieldsAux s [] [] false false false

/-- Oracle for `filepath.Glob`: `none` models a pattern error,
`some l` the (sorted) list of matches. -/
def GlobFn := Str → Option Args

/-- `glob` loop of part_000.  On a word containing an unescaped `*`/`?` it
evaluates `filepath.Glob`; on error the word is left alone; otherwise the
source computes `args = append(args[:i], append(args[i+1:], glob...)...)`,
i.e. the word is removed and the matches are appended at the END of the
list, and then `i += len(glob) - 1` (so with the following `i++` the index
advances by `len(glob)`).  Fuel bound: each iteration decreases
`args.length - i` by exactly one, so `args.length + 1` fuel suffices. -/
def globGo (g : GlobFn) : Nat → Args → Nat → Args
  | 0, args, _ => args
  | fuel + 1, args, i =>
    if i < args.length then
      let w := args.getD i []
      if (peekany w ['*', '?']).isSome then
        match g w with
        | none => globGo g fuel args (i + 1)
        | some ms => globGo g fuel (args.take i ++ args.drop (i + 1) ++ ms) (i + ms.length)
      else globGo g fuel args (i + 1)
    else args

def glob (g : GlobFn) (args : Args) : Args := globGo g (args.length + 1) args 0

def fields (g : GlobFn) (s : Str) : Args :=
  let (args, doglob) := fieldsCore s
  if doglob then glob g args else args

/-- The `file` struct of part_000: redirection target path and open mode. -/
structure GoFile where
  path : Str
  mode : Nat
deriving DecidableEq

/-- The command tree.  `nil` models a nil `Cmd` interface value in Go. -/
inductive Cmd where
  | nil : Cmd
  | exec (args : Args) : Cmd
  | async (c : Cmd) : Cmd
  | list (l r : Cmd) : Cmd
  | redir (c : Cmd) (inF outF : GoFile) : Cmd
  | cond (l r : Cmd) (success : Bool) : Cmd
  | pipe (l r : Cmd) : Cmd
deriving DecidableEq

/-- The error values produced by the interpreter (`fmt.Errorf` messages, plus
`panicked` for a Go runtime panic such as an out-of-range index). -/
inductive Err where
  | ambiguousRedirect : Err
  | duplicateRedirect : Err
  | pipeAndRedirect : Err
  | usageCd : Err
  | usageExit : Err
  | cantCd (d : Str) : Err
  | notFound (n : Str) : Err
  | cantOpen (p : Str) : Err
  | cantCreate (p : Str) : Err
  | panicked : Err
  | execFail : Err
deriving DecidableEq

/-- Linux values of os.O_RDONLY and os.O_WRONLY | os.O_CREATE | os.O_TRUNC. -/
def inMode : Nat := 0

def outMode : Nat := 1 ||| 64 ||| 512

/-- The `Redir` value being accumulated by `parseredirs`. -/
structure RedirSt where
  c : Cmd
  inF : GoFile
  outF : GoFile
deriving DecidableEq

/-- Length of the run of characters equal to `' '` or to `r` at the front:
models the `for start < len(args) && (args[start] == ' ' || args[start] == r)`
skip loop of `parseredirs`. -/
def countRep (r : Char) : Str → Nat
  | [] => 0
  | c :: cs => if c = ' ' ∨ c = r then countRep r cs + 1 else 0

def isSpaceGo (c : Char) : Bool :=
  c = ' ' || c = '\t' || c = '\n' || c = '\r' || c = '\x0b' || c = '\x0c'

/-- `strings.TrimSpace` restricted to ASCII whitespace. -/
def trimSpace (s : Str) : Str :=
  ((s.dropWhile isSpaceGo).reverse.dropWhile isSpaceGo).reverse

/-- The `parseredirs` loop of part_000.  Each iteration finds the first
unquoted/unescaped `<` or `>` (in that priority), skips following spaces and
repeats of the operator, reads the target up to the next unquoted space,
errors on an empty target or a duplicate direction, splices the operator and
target out of the string, and re-splits the command words.  Fuel bound: each
iteration removes at least one character from `args`. -/
def parseredirsAux (g : GlobFn) : Nat → Str → RedirSt → Cmd × Option Err
  | 0, _, st => (.redir st.c st.inF st.outF, none)
  | fuel + 1, args, st =>
    match peekany args ['<', '>'] with
    | none => (.redir st.c st.inF st.outF, none)
    | some (i, r) =>
      let start := i + 1 + countRep r (args.drop (i + 1))
      let e :=
        match peek (args.drop start) ' ' with
        | none => args.length
        | some k => k + start
      let path := trimSpace ((args.drop start).take (e - start))
      if path = [] then (.nil, some .ambiguousRedirect)
      else
        let args' := args.take i ++ args.drop e
        let st := { st with c := Cmd.exec (fields g args') }
        if r = '>' then
          if st.outF.path ≠ [] then (.nil, some .duplicateRedirect)
          else parseredirsAux g fuel args' { st with outF := ⟨path, outMode⟩ }
        else
          if st.inF.path ≠ [] then (.nil, some .duplicateRedirect)
          else parseredirsAux g fuel args' { st with inF := ⟨path, inMode⟩ }

def parseredirs (g : GlobFn) (args : Str) : Cmd × Option Err :=
  parseredirsAux g (args.length + 1) args ⟨.nil, ⟨[], 0⟩, ⟨[], 0⟩⟩

/-- The cut made at the top of `parseexec`: the command substring before the
first unquoted `|`/`&`/`;` and the remaining line (operator included; the
line is left whole when no operator occurs). -/
def execCut (ln : Str) : Str × Str :=
  match peekany ln ['|', '&', ';'] with
  | some (i, _) => (ln.take i, ln.drop i)
  | none => (ln, ln)

/-- `parseexec` of part_000: cut the line at the first unquoted `|`/`&`/`;`
(leaving the rest, operator included, for the caller), return the nil command
on an empty substring, and hand the substring to `parseredirs` when it holds
an unquoted `<`/`>`. -/
def parseexec (g : GlobFn) (ln : Str) : (Cmd × Option Err) × Str :=
  let p := execCut ln
  if p.1 = [] then ((.nil, none), p.2)
  else
    match peekany p.1 ['<', '>'] with
    | some _ => (parseredirs g p.1, p.2)
    | none => ((.exec (fields g p.1), none), p.2)

/-- `parseline` (tag `true`) and `parsepipe` (tag `false`) of part_000,
merged into one function so that the mutual recursion is structural on a
fuel parameter.  Every recursive call in the source either keeps the line
and switches from `parseline` to `parsepipe`, or drops at least one
character, so `2 * ln.length + 4` fuel is ample.  Faithful quirks kept:
after `*ln = (*ln)[i+1:]` the lookahead for a doubled operator reads the
NEW string at index `i`; the `&&`, `||` and `;` branches return a fresh nil
error, discarding any error from the left operand; the plain-pipe branch
returns the left operand's error alongside the `Pipe` node. -/
def parseLP (g : GlobFn) : Nat → Bool → Str → (Cmd × Option Err) × Str
  | 0, _, ln => ((.nil, none), ln)
  | fuel + 1, isLine, ln =>
    if isLine then
      -- parseline
      let ((cmd, err), ln) := parseLP g fuel false ln
      match peek ln '&' with
      | some i =>
        let ln := ln.drop (i + 1)
        if i < ln.length ∧ ln.getD i ' ' = '&' then
          let ln := ln.drop (i + 1)
          let ((right, rerr), ln) := parseLP g fuel true ln
          match rerr with
          | some e => ((.nil, some e), ln)
          | none => ((.cond cmd right true, none), ln)
        else
          -- cmd = Async{cmd}; fall through to the ';' check
          match peek ln ';' with
          | some j =>
            let ln := ln.drop (j + 1)
            let ((right, rerr), ln) := parseLP g fuel true ln
            match rerr with
            | some e => ((.nil, some e), ln)
            | none => ((.list (.async cmd) right, none), ln)
          | none => ((.async cmd, err), ln)
      | none =>
        match peek ln ';' with
        | some j =>
          let ln := ln.drop (j + 1)
          let ((right, rerr), ln) := parseLP g fuel true ln
          match rerr with
          | some e => ((.nil, some e), ln)
          | none => ((.list cmd right, none), ln)
        | none => ((cmd, err), ln)
    else
      -- parsepipe
      let ((cmd, err), ln) := parseexec g ln
      match peek ln '|' with
      | some i =>
        let ln := ln.drop (i + 1)
        if i < ln.length ∧ ln.getD i ' ' = '|' then
          let ln := ln.drop (i + 1)
          let ((right, rerr), ln) := parseLP g fuel true ln
          match rerr with
          | some e => ((.nil, some e), ln)
          | none => ((.cond cmd right false, none), ln)
        else
          let ((right, rerr), ln') := parseLP g fuel true ln
          match rerr with
          | some e => ((.nil, some e), ln')
          | none =>
            match cmd with
            | .redir c fIn fOut =>
              if fOut.path ≠ [] then ((.nil, some .pipeAndRedirect), ln')
              else ((.pipe (.redir c fIn fOut) right, err), ln')
            | _ => ((.pipe cmd right, err), ln')
      | none => ((cmd, err), ln)

def parseline (g : GlobFn) (ln : Str) : (Cmd × Option Err) × Str :=
  parseLP g (2 * ln.length + 4) true ln

/-- The oracles standing for the process and filesystem environment, plus the
process-wide `path` list. -/
structure Env where
  stat : Str → Bool
  getwd : Option Str
  exit : Args → Nat
  openOk : Str → Nat → Bool
  pipeOk : Bool
  chdirOk : Str → Bool
  pathList : Args

/-- `filepath.Join` for the shapes arising here (no `Clean` normalization:
the searched directories and command names contain no `.`/`..` segments or
doubled slashes in any statement below). -/
def joinPath (a b : Str) : Str :=
  if a = [] then b else if b = [] then a else a ++ '/' :: b

/-- The `p == "."` case of `which`: the current directory is resolved via
`os.Getwd`, falling back to the empty string on error. -/
def resolveDir (env : Env) (p : Str) : Str :=
  if p = ['.'] then (env.getwd.getD []) else p

def whichGo (env : Env) : Args → Str → Str
  | [], _ => []
  | p :: ps, c =>
    let fp := joinPath (resolveDir env p) c
    if env.stat fp then fp else whichGo env ps c

/-- `which` of part_000: first directory of the search path holding an
existing entry named `cmd` wins; no match yields the empty string. -/
def which000 (env : Env) (c : Str) : Str := whichGo env env.pathList c

/-- `strconv.Atoi`, returning 0 on any parse error as the source ignores the
error.  Int64 overflow clamping is not modeled (no statement exercises it). -/
def atoiGo (s : Str) : Int :=
  match s with
  | '-' :: rest =>
    if rest ≠ [] ∧ rest.all Char.isDigit then
      -(rest.foldl (fun a c => a * 10 + ((c.toNat : Int) - 48)) (0 : Int))
    else 0
  | '+' :: rest =>
    if rest ≠ [] ∧ rest.all Char.isDigit then
      rest.foldl (fun a c => a * 10 + ((c.toNat : Int) - 48)) (0 : Int)
    else 0
  | _ =>
    if s ≠ [] ∧ s.all Char.isDigit then
      s.foldl (fun a c => a * 10 + ((c.toNat : Int) - 48)) (0 : Int)
    else 0

/-- Result of `parsebuiltin`: continue parsing with a (possibly emptied)
line and a possibly updated search path, fail with a usage/chdir error, or
terminate the process (`os.Exit`). -/
inductive BRes where
  | cont (ln : Str) (newPath : Args) : BRes
  | failed (e : Err) : BRes
  | exited (code : Int) : BRes
deriving DecidableEq

/-- `parsebuiltin` of part_000: the first word of the `fields`-split line
selects a builtin; `#` comments out the line, `cd` requires exactly one
argument and chdirs, `path` prints or replaces the search path, `exit`
terminates with an optional numeric status. -/
def parsebuiltin (env : Env) (g : GlobFn) (ln : Str) : BRes :=
  match fields g ln with
  | [] => .cont ln env.pathList
  | a0 :: rest =>
    if a0 = str "#" then .cont [] env.pathList
    else if a0 = str "cd" then
      match rest with
      | [d] => if env.chdirOk d then .cont [] env.pathList else .failed (.cantCd d)
      | _ => .failed .usageCd
    else if a0 = str "path" then
      match rest with
      | [] => .cont [] env.pathList  -- prints the current path
      | _ => .cont [] rest
    else if a0 = str "exit" then
      match rest with
      | [] => .exited 0
      | [a] => .exited (atoiGo a)
      | _ => .failed .usageExit
    else .cont ln env.pathList

/-- The trailing-backslash continuation loop at the top of `parse`:
`for strings.HasSuffix(ln, "\\") && s.Scan() { ln = TrimSuffix(ln,"\\") + s.Text() }`.
`lines` are the remaining physical input lines. -/
def contLoop : Str → List Str → Str × List Str
  | ln, [] => (ln, [])
  | ln, l :: ls =>
    if ln.getLast? = some '\\' then contLoop (ln.dropLast ++ l) ls
    else (ln, l :: ls)

/-- Result of `parse` for one logical line: the command tree and error as Go
returns them, the unconsumed physical lines, the possibly updated search
path, and whether the `exit` builtin terminated the process. -/
structure PRes where
  cmd : Cmd
  err : Option Err
  rest : List Str
  pathOut : Args
  exited : Option Int
deriving DecidableEq

/-- `parse` of part_000: empty lines are nil; then line continuation runs
(before any tokenization or builtin recognition), then `parsebuiltin`, then
`parseline`. -/
def parse000 (env : Env) (g : GlobFn) (ln : Str) (lines : List Str) : PRes :=
  if ln = [] then ⟨.nil, none, lines, env.pathList, none⟩
  else
    let (ln, lines) := contLoop ln lines
    match parsebuiltin env g ln with
    | .failed e => ⟨.nil, some e, lines, env.pathList, none⟩
    | .exited c => ⟨.nil, none, lines, env.pathList, some c⟩
    | .cont ln' p' =>
      let ((c, e), _) := parseline g ln'
      ⟨c, e, lines, p', none⟩

/-- A spawned process, recorded as its argv (command word first).  The
executors below return the list of processes actually spawned, in order,
together with the Go error value they return. -/
abbrev Proc := Args

/-- `mkcmd(args...).Run()` as called by part_000's executor: the command name
is resolved through `which`; an empty resolution makes `Start` (and hence
`Run`) fail without spawning anything; otherwise the process runs and `Run`
returns an error exactly when the exit status is non-zero. -/
def cmdRun000 (env : Env) (args : Args) : List Proc × Option Err :=
  match args with
  | [] => ([], some .panicked)  -- mkcmd indexes args[0]
  | name :: _ =>
    if which000 env name = [] then ([], some .execFail)
    else ([args], if env.exit args = 0 then none else some .execFail)

/-- `run` of part_000.  Faithful quirks kept: the `Exec` case DISCARDS the
error of `Run()` (source line 330 has no `return`), so an `Exec` node's
result is always nil; the `List` and `Pipe` cases discard both children's
results; the failing-stdin message of `Redir` prints `cmd.Out.Path`
(source line 335); `os.Pipe` failure returns nil.  The goroutines of `Pipe`
and `Async` are sequentialized. -/
def run000 (env : Env) : Cmd → List Proc × Option Err
  | .nil => ([], none)
  | .exec args =>
    if args.length < 1 then ([], none)
    else ((cmdRun000 env args).1, none)
  | .redir c fIn fOut =>
    if fIn.path ≠ [] ∧ env.openOk fIn.path fIn.mode = false then
      ([], some (.cantOpen fOut.path))
    else if fOut.path ≠ [] ∧ env.openOk fOut.path fOut.mode = false then
      ([], some (.cantCreate fOut.path))
    else run000 env c
  | .list l r => ((run000 env l).1 ++ (run000 env r).1, none)
  | .pipe l r =>
    if env.pipeOk then ((run000 env l).1 ++ (run000 env r).1, none)
    else ([], none)
  | .async c => ((run000 env c).1, none)
  | .cond l r success =>
    let (tl, el) := run000 env l
    if success = el.isNone then
      let (tr, er) := run000 env r
      (tl ++ tr, er)
    else (tl, none)

/-- One iteration of part_000's main read-eval loop: `parse` the line; a
non-nil error jumps to `printerr`, so the tree is never executed; otherwise
the tree is run.  Returns the iteration's spawn trace and the reported
error, if any. -/
def mainStep000 (env : Env) (g : GlobFn) (ln : Str) (lines : List Str) :
    List Proc × Option Err :=
  match (parse000 env g ln lines).err with
  | some e => ([], some e)
  | none => run000 env (parse000 env g ln lines).cmd

/-- The `Exec` payload of a Go type assertion `cmd.(Exec)`: a non-`Exec` (or
nil) value yields the zero `Exec` with a nil `Args` slice. -/
def asExecArgs : Cmd → Args
  | .exec a => a
  | _ => []

/-- `mkcmd(args).Run()` as used by part_001's `Conditional` case, with the
command-name resolver `w` passed in. -/
def mkRun001 (env : Env) (w : Str → Str) (args : Args) : List Proc × Option Err :=
  match args with
  | [] => ([], some .panicked)  -- mkcmd indexes args[0]
  | name :: _ =>
    if w name = [] then ([], some .execFail)
    else ([args], if env.exit args = 0 then none else some .execFail)

/-- `run` of part_001, parameterized by the command-name resolver `w` (the
`which` search).  The `Exec` case checks the resolved path and returns a
"`name`: not found" error instead of spawning an empty path.  `Redir` is a
TODO in the source and falls through to a nil return.  `List` reports the
left child's error to stderr and returns the right child's result.  In
`Async`, a failed `Start` leads to a nil-pointer dereference on
`x.Process.Pid` (a panic).  In `Pipe` both `Start` calls are evaluated
before the error slice is scanned; goroutines are sequentialized.
A Go panic (`Err.panicked`, raised by `mkcmd`'s `args[0]` on an empty argv)
crashes the whole process, so the `List` and `Conditional` cases must not
continue past it: a left-child panic aborts with nothing further run,
rather than being treated as an ordinary reportable error. -/
def run001 (env : Env) (w : Str → Str) : Cmd → List Proc × Option Err
  | .nil => ([], none)
  | .exec args =>
    match args with
    | [] => ([], some .panicked)  -- mkcmd indexes args[0]
    | name :: rest =>
      if w name = [] then ([], some (.notFound name))
      else ([name :: rest], if env.exit (name :: rest) = 0 then none else some .execFail)
  | .redir _ _ _ => ([], none)  -- TODO(thimc) in the source: not executed
  | .list l r =>
    if (run001 env w l).2 = some .panicked then ((run001 env w l).1, some .panicked)
    else ((run001 env w l).1 ++ (run001 env w r).1, (run001 env w r).2)
  | .async c =>
    match asExecArgs c with
    | [] => ([], some .panicked)
    | name :: rest =>
      if w name = [] then ([], some .panicked)  -- Start fails, then x.Process.Pid
      else ([name :: rest], none)
  | .cond l r success =>
    let pl := mkRun001 env w (asExecArgs l)
    if pl.2 = some .panicked then (pl.1, some .panicked)
    else if success = pl.2.isNone then
      let pr := mkRun001 env w (asExecArgs r)
      (pl.1 ++ pr.1, pr.2)
    else (pl.1, none)
  | .pipe l r =>
    let la := asExecArgs l
    let ra := asExecArgs r
    match la, ra with
    | [], _ => ([], some .panicked)
    | _, [] => ([], some .panicked)
    | nl :: _, nr :: _ =>
      let sl := w nl = []
      let sr := w nr = []
      ((if sl then [] else [la]) ++ (if sr then [] else [ra]),
        if sl ∨ sr then some .execFail
        else if env.exit la ≠ 0 then some .execFail
        else if env.exit ra ≠ 0 then some .execFail
        else none)

/-! ## Specification-side definitions

The definitions below are NOT translations of the source; they formalize the
wording of the specification's contracts, to be compared with the functions
above.  Each is written in a declarative style (state functions over
prefixes, first-index searches, two-character lookahead) rather than the
source's flag-threading scans. -/

/-- Escape state of position `i` as the spec words it: a character is escaped
iff it is immediately preceded by a backslash that is itself unescaped. -/
def escA (ln : Str) : Nat → Bool
  | 0 => false
  | i + 1 => (ln.getD i ' ' = '\\') && !(escA ln i)

/-- Quote state of position `i` as the spec words it: inside an active
single-quote span iff an odd number of unescaped quotes precede it. -/
def quotedA (ln : Str) (i : Nat) : Bool :=
  decide (((List.range i).countP
    (fun j => ln.getD j ' ' = '\'' ∧ escA ln j = false)) % 2 = 1)

/-- The `peek` contract exactly as the specification states it: the index of
the first occurrence of `ch` that is neither inside an active single-quote
span nor immediately preceded by an unescaped backslash. -/
def peekSpecA (ln : Str) (ch : Char) : Option Nat :=
  (List.range ln.length).find? (fun i =>
    (ln.getD i ' ' == ch) && !quotedA ln i &&
      !(decide (0 < i) && (ln.getD (i - 1) ' ' == '\\') && !(escA ln (i - 1))))

/-- Quote state actually maintained by `peek`, seeded with `q`: every quote
character toggles it, escaped or not. -/
def stateQ (q : Bool) : Str → Nat → Bool
  | _, 0 => q
  | [], _ + 1 => q
  | c :: rest, i + 1 => stateQ (if c = '\'' then !q else q) rest i

/-- Escape state actually maintained by `peek`, seeded with `e`: any
backslash turns it on, a quote character preserves it, any other character
clears it. -/
def stateE (e : Bool) : Str → Nat → Bool
  | _, 0 => e
  | [], _ + 1 => e
  | c :: rest, i + 1 =>
    stateE (if c = '\\' then true else if c = '\'' then e else false) rest i

/-- Declarative characterization of what `peek` really returns: the first
index holding `ch` (never found when `ch` is a backslash or a quote) whose
quote parity (every quote toggles) and persistent escape state are off. -/
def peekSpecB (ln : Str) (ch : Char) : Option Nat :=
  (List.range ln.length).find? (fun i =>
    (ln.getD i ' ' == ch) && !(ch == '\\') && !(ch == '\'') &&
      !stateQ false ln i && !stateE false ln i)

def pushCur (args : Args) (cur : Str) : Args :=
  if cur.length > 0 then args ++ [cur] else args

/-- The `fields` contract exactly as the specification states it, written
with two-character lookahead: outside quotes a backslash is dropped and the
next character is copied verbatim (neither a separator nor a glob trigger);
INSIDE quotes a backslash is copied literally with NO escaping, so the
following character is processed normally; quotes toggle and are removed;
unquoted spaces separate words; unquoted `*`/`?` set the glob flag. -/
def fieldsSpecA : Str → Bool → Args → Str → Bool → Args × Bool
  | [], _, args, cur, d => (pushCur args cur, d)
  | '\\' :: rest, true, args, cur, d => fieldsSpecA rest true args (cur ++ ['\\']) d
  | ['\\'], false, args, cur, d => (pushCur args cur, d)
  | '\\' :: c :: rest, false, args, cur, d => fieldsSpecA rest false args (cur ++ [c]) d
  | '\'' :: rest, q, args, cur, d => fieldsSpecA rest (!q) args cur d
  | ' ' :: rest, true, args, cur, d => fieldsSpecA rest true args (cur ++ [' ']) d
  | ' ' :: rest, false, args, cur, d => fieldsSpecA rest false (pushCur args cur) [] d
  | c :: rest, q, args, cur, d =>
    if c = '*' ∨ c = '?' then fieldsSpecA rest q args (cur ++ [c]) (d || !q)
    else fieldsSpecA rest q args (cur ++ [c]) d

def fieldsSpecACore (s : Str) : Args × Bool := fieldsSpecA s false [] [] false

/-- Amended `fields` contract: identical to `fieldsSpecA` except in the one
clause the code contradicts — inside quotes a backslash is copied literally
AND additionally escapes the following character, which is copied verbatim
(so a quote right after a backslash inside quotes does not close the span,
and does not toggle anything). -/
def fieldsSpecB : Str → Bool → Args → Str → Bool → Args × Bool
  | [], _, args, cur, d => (pushCur args cur, d)
  | ['\\'], true, args, cur, d => (pushCur args (cur ++ ['\\']), d)
  | '\\' :: c :: rest, true, args, cur, d => fieldsSpecB rest true args (cur ++ ['\\', c]) d
  | ['\\'], false, args, cur, d => (pushCur args cur, d)
  | '\\' :: c :: rest, false, args, cur, d => fieldsSpecB rest false args (cur ++ [c]) d
  | '\'' :: rest, q, args, cur, d => fieldsSpecB rest (!q) args cur d
  | ' ' :: rest, true, args, cur, d => fieldsSpecB rest true args (cur ++ [' ']) d
  | ' ' :: rest, false, args, cur, d => fieldsSpecB rest false (pushCur args cur) [] d
  | c :: rest, q, args, cur, d =>
    if c = '*' ∨ c = '?' then fieldsSpecB rest q args (cur ++ [c]) (d || !q)
    else fieldsSpecB rest q args (cur ++ [c]) d

def fieldsSpecBCore (s : Str) : Args × Bool := fieldsSpecB s false [] [] false

/-- Does the raw line end in a backslash character? -/
def endsBS (ln : Str) : Bool := ln.getLast? = some '\\'

/-- Is the trailing backslash unescaped, i.e. is the maximal run of
backslashes at the end of the line of odd length? -/
def endsUnescapedBS (ln : Str) : Bool :=
  decide ((ln.reverse.takeWhile (fun c => c = '\\')).length % 2 = 1)

/-- The line-continuation contract exactly as the specification states it:
only a line ending in an UNESCAPED backslash consumes the next physical
line. -/
def contLoopSpec : Str → List Str → Str × List Str
  | ln, [] => (ln, [])
  | ln, l :: ls =>
    if endsUnescapedBS ln then contLoopSpec (ln.dropLast ++ l) ls
    else (ln, l :: ls)

/-- The line obtained after `k` continuation steps: each step strips the
trailing backslash and appends the next physical line. -/
def joinK (ln : Str) (lines : List Str) (k : Nat) : Str :=
  (lines.take k).foldl (fun a l => a.dropLast ++ l) ln

/-- Does every `Exec` node of the tree carry at least one argument word? -/
def allExecsNonEmpty : Cmd → Bool
  | .nil => true
  | .exec args => decide (args ≠ [])
  | .async c => allExecsNonEmpty c
  | .list l r => allExecsNonEmpty l && allExecsNonEmpty r
  | .redir c _ _ => allExecsNonEmpty c
  | .cond l r _ => allExecsNonEmpty l && allExecsNonEmpty r
  | .pipe l r => allExecsNonEmpty l && allExecsNonEmpty r

/-! ## Concrete environments used in closed statements -/

/-- Environment where every `os.Stat` succeeds, the working directory is
`/w`, `false` exits 1 and every other command exits 0. -/
def env0 : Env where
  stat := fun _ => true
  getwd := some (str "/w")
  exit := fun a => if a = [str "false"] then 1 else 0
  openOk := fun _ _ => true
  pipeOk := true
  chdirOk := fun _ => true
  pathList := [str ".", str "/bin", str "/usr/bin", str "/usr/local/bin"]

/-- Environment where no file exists at all. -/
def envNF : Env :=
  { env0 with stat := fun _ => false }

/-- Glob oracle with no matches for any pattern. -/
def g0 : GlobFn := fun _ => some []

/-- Glob oracle for the `glob` misplacement statement: the pattern `a*`
matches `a1` and `a2` (already sorted); other patterns error. -/
def g5 : GlobFn := fun w => if w = str "a*" then some [str "a1", str "a2"] else none

/-! ## Helper lemmas -/

theorem whichGo_eq_nil (env : Env) (dirs : Args) (c : Str)
    (h : ∀ p ∈ dirs, env.stat (joinPath (resolveDir env p) c) = false) :
    whichGo env dirs c = [] := by
  induction dirs with
  | nil => rfl
  | cons p ps ih =>
    simp only [whichGo]
    rw [h p (List.mem_cons_self p ps)]
    simp only [Bool.false_eq_true, if_false]
    exact ih fun q hq => h q (List.mem_cons_of_mem p hq)

theorem joinK_nil (ln : Str) (lines : List Str) : joinK ln lines 0 = ln := rfl

theorem joinK_cons_succ (ln l : Str) (ls : List Str) (j : Nat) :
    joinK ln (l :: ls) (j + 1) = joinK (ln.dropLast ++ l) ls j := by
  simp [joinK]

/-! ## Theorems for the claims -/

/-- C1 (code bug): part_000's executor discards the exit status of an `Exec`
child (`mkcmd(...).Run()` on line 330 drops the returned error), so the
`Conditional` node parsed from "false && echo x" observes a nil result for
the failed left child and executes `echo x` anyway: the spawn trace contains
both argvs even though `false` exits 1. -/
theorem run000_cond_runs_right_after_failed_left :
    (parse000 env0 g0 (str "false && echo x") []).cmd =
      .cond (.exec [str "false"]) (.exec [str "echo", str "x"]) true ∧
    (parse000 env0 g0 (str "false && echo x") []).err = none ∧
    env0.exit [str "false"] = 1 ∧
    run000 env0 (.cond (.exec [str "false"]) (.exec [str "echo", str "x"]) true) =
      ([[str "false"], [str "echo", str "x"]], none) := by decide

/-- C2: when a command name matches no existing file in any directory of the
search path, `which` resolves to the empty string, and part_001's executor
turns this into a reported "not found" failure for the `Exec` node instead
of spawning anything (the spawn trace is empty). -/
theorem run001_exec_not_found (env : Env) (name : Str) (rest : Args)
    (h : ∀ p ∈ env.pathList, env.stat (joinPath (resolveDir env p) name) = false) :
    which000 env name = [] ∧
      run001 env (fun c => which000 env c) (.exec (name :: rest)) =
        ([], some (.notFound name)) := by
  have hw : which000 env name = [] := whichGo_eq_nil env env.pathList name h
  exact ⟨hw, by simp [run001, hw]⟩

/-- Witness for C2 at a concrete input: in an environment where no file
exists, `ls` is not found. -/
theorem run001_exec_not_found_witness :
    which000 envNF (str "ls") = [] ∧
      run001 envNF (fun c => which000 envNF c) (.exec [str "ls"]) =
        ([], some (.notFound (str "ls"))) :=
  run001_exec_not_found envNF (str "ls") [] fun _ _ => rfl

/-- C3 counterexample: a malformed redirection with an empty target path does
NOT make parsing fail when a `;` follows it on the same line — the `;` branch
of `parseline` returns a fresh nil error, discarding the left operand's
parse error, and the rest of the line is built and executable. -/
theorem parse000_swallows_error_before_semicolon :
    (parse000 env0 g0 (str "cmd > ; echo") []).err = none ∧
    (parse000 env0 g0 (str "cmd > ; echo") []).cmd =
      .list .nil (.exec [str "echo"]) := by decide

theorem parsebuiltin_cd_usage (env : Env) (g : GlobFn) (ln : Str) (a0 : Str)
    (rest : Args) (h : fields g ln = a0 :: rest) (ha : a0 = str "cd")
    (hlen : rest.length ≠ 1) :
    parsebuiltin env g ln = .failed .usageCd := by
  subst ha
  have hne : ¬ (str "cd" = str "#") := by decide
  rcases rest with _ | ⟨d, _ | ⟨e0, rest'⟩⟩
  · simp [parsebuiltin, h, hne]
  · exact absurd rfl hlen
  · simp [parsebuiltin, h, hne]

theorem parse000_of_builtin_failed (env : Env) (g : GlobFn) (ln : Str)
    (lines : List Str) (e : Err) (hln : ln ≠ [])
    (h : parsebuiltin env g (contLoop ln lines).1 = .failed e) :
    (parse000 env g ln lines).err = some e := by
  rw [parse000, if_neg hln]
  rcases hcl : contLoop ln lines with ⟨a, b⟩
  rw [hcl] at h
  simp only [] at h
  simp [h]

theorem mainStep000_of_err (env : Env) (g : GlobFn) (ln : Str) (lines : List Str)
    (e : Err) (h : (parse000 env g ln lines).err = some e) :
    mainStep000 env g ln lines = ([], some e) := by
  simp [mainStep000, h]

/-- C3 amended: lines whose only simple command is malformed are rejected
with the corresponding error — shown for a representative of each class:
empty redirection target (`cmd >`), duplicate same-direction redirection
(`cmd > a > b`), output redirection on the command feeding a pipe
(`a > f | b`), and builtin wrong argument count (`cd`); the wrong-argument
`cd` case is proved for EVERY line whose word list is `cd` with other than
one argument, builtin failures propagate through `parse` for every line,
and for every line whose parse returns an error the main loop executes
nothing.  When the malformed command is followed by `|` or a bare `&` the
error is still returned, but alongside a non-nil (never executed) tree —
`Pipe{nil, Exec[b]}` for `cmd > | b`, `Async{nil}` for `cmd > & b` —
rather than a nil one. -/
theorem parse000_malformed_rejection_scope :
    (parse000 env0 g0 (str "cmd >") []).err = some .ambiguousRedirect ∧
    (parse000 env0 g0 (str "cmd > a > b") []).err = some .duplicateRedirect ∧
    (parse000 env0 g0 (str "a > f | b") []).err = some .pipeAndRedirect ∧
    (parse000 env0 g0 (str "cd") []).err = some .usageCd ∧
    (parse000 env0 g0 (str "cmd > | b") []).err = some .ambiguousRedirect ∧
    (parse000 env0 g0 (str "cmd > | b") []).cmd = .pipe .nil (.exec [str "b"]) ∧
    (parse000 env0 g0 (str "cmd > & b") []).err = some .ambiguousRedirect ∧
    (parse000 env0 g0 (str "cmd > & b") []).cmd = .async .nil ∧
    (∀ (env : Env) (g : GlobFn) (ln : Str) (a0 : Str) (rest : Args),
      fields g ln = a0 :: rest → a0 = str "cd" → rest.length ≠ 1 →
      parsebuiltin env g ln = .failed .usageCd) ∧
    (∀ (env : Env) (g : GlobFn) (ln : Str) (lines : List Str) (e : Err),
      ln ≠ [] → parsebuiltin env g (contLoop ln lines).1 = .failed e →
      (parse000 env g ln lines).err = some e) ∧
    (∀ (env : Env) (g : GlobFn) (ln : Str) (lines : List Str) (e : Err),
      (parse000 env g ln lines).err = some e →
      mainStep000 env g ln lines = ([], some e)) := by
  refine ⟨by decide, by decide, by decide, by decide, by decide, by decide, by decide,
    by decide, parsebuiltin_cd_usage, parse000_of_builtin_failed, mainStep000_of_err⟩

/-- Witness for C3's universal conjuncts at the concrete line `cd a b`: the
builtin usage error arises, propagates through `parse`, and the main loop
executes nothing. -/
theorem parse000_malformed_rejection_scope_witness :
    parsebuiltin env0 g0 (str "cd a b") = .failed .usageCd ∧
    (parse000 env0 g0 (str "cd a b") []).err = some .usageCd ∧
    mainStep000 env0 g0 (str "cd a b") [] = ([], some .usageCd) :=
  ⟨parse000_malformed_rejection_scope.2.2.2.2.2.2.2.2.1 env0 g0 (str "cd a b")
      (str "cd") [str "a", str "b"] (by decide) rfl (by decide),
   parse000_malformed_rejection_scope.2.2.2.2.2.2.2.2.2.1 env0 g0 (str "cd a b") []
      .usageCd (by decide) (by decide),
   parse000_malformed_rejection_scope.2.2.2.2.2.2.2.2.2.2 env0 g0 (str "cd a b") []
      .usageCd (by decide)⟩

/-- C5 (code bug): the `glob` loop removes the pattern word but appends the
matches at the END of the argument list (`append(args[:i],
append(args[i+1:], glob...)...)`), so expansion is not in place and not
order-preserving: with `a*` matching `a1`,`a2`, the word list
`ls a* b` becomes `ls b a1 a2`, not `ls a1 a2 b`. -/
theorem glob_appends_matches_at_end :
    glob g5 [str "ls", str "a*", str "b"] = [str "ls", str "b", str "a1", str "a2"] ∧
    glob g5 [str "ls", str "a*", str "b"] ≠ [str "ls", str "a1", str "a2", str "b"] := by
  decide

/-- C6 counterexample: a `List` whose left child is an `Exec` with an empty
argv — reachable in part_001 from the input line `; echo`, whose
`strings.Fields`-based `parseexec` yields `Exec{[]}` — panics in `mkcmd`
(`args[0]` on an empty slice) and crashes the process: the right child is
never evaluated (the spawn trace is empty) and the node's result is not the
right child's result, refuting "the right child always runs". -/
theorem run001_list_panic_cex :
    run001 env0 (fun c => which000 env0 c) (.list (.exec []) (.exec [str "echo"])) =
      ([], some .panicked) ∧
    run001 env0 (fun c => which000 env0 c) (.list (.exec []) (.exec [str "echo"])) ≠
      ((run001 env0 (fun c => which000 env0 c) (.exec [])).1 ++
        (run001 env0 (fun c => which000 env0 c) (.exec [str "echo"])).1,
       (run001 env0 (fun c => which000 env0 c) (.exec [str "echo"])).2) := by decide

/-- C6 amended: for every `List` node whose left child's evaluation does not
panic, part_001's executor evaluates the left child first (its spawn trace
comes first), an ordinary error of the left child does not prevent the right
child from running, the right child runs, and the `List` node's result is
exactly the right child's result.  (A left-child panic crashes the process
and nothing further runs.) -/
theorem run001_list_left_then_right_result_of_right (env : Env) (w : Str → Str)
    (l r : Cmd) (h : (run001 env w l).2 ≠ some .panicked) :
    run001 env w (.list l r) =
      ((run001 env w l).1 ++ (run001 env w r).1, (run001 env w r).2) := by
  simp only [run001]
  rw [if_neg h]

/-- Witness for C6 at a concrete input: the left child `false` fails with an
ordinary error (exit status 1), and the right child `echo` still runs, its
result becoming the `List` node's result. -/
theorem run001_list_left_then_right_result_of_right_witness :
    run001 env0 (fun c => which000 env0 c)
        (.list (.exec [str "false"]) (.exec [str "echo"])) =
      ((run001 env0 (fun c => which000 env0 c) (.exec [str "false"])).1 ++
        (run001 env0 (fun c => which000 env0 c) (.exec [str "echo"])).1,
       (run001 env0 (fun c => which000 env0 c) (.exec [str "echo"])).2) :=
  run001_list_left_then_right_result_of_right env0 (fun c => which000 env0 c)
    (.exec [str "false"]) (.exec [str "echo"]) (by decide)

/-- C9 counterexample: `parseexec` collapses to the nil node only when the
RAW substring is empty; the line `''` has a non-empty substring but an empty
word list, and the parser yields an `Exec` node with zero argument words
(and no error), violating the non-empty-`Exec` invariant. -/
theorem parse000_builds_empty_exec :
    (parse000 env0 g0 (str "''") []).err = none ∧
    (parse000 env0 g0 (str "''") []).cmd = .exec [] ∧
    allExecsNonEmpty (.exec []) = false := by decide

theorem parseredirsAux_ne_nil_ok (g : GlobFn) :
    ∀ (fuel : Nat) (args : Str) (st : RedirSt),
      parseredirsAux g fuel args st ≠ (Cmd.nil, none) := by
  intro fuel
  induction fuel with
  | zero =>
    intro args st h
    simp [parseredirsAux] at h
  | succ fuel ih =>
    intro args st h
    rw [parseredirsAux] at h
    rcases hpk : peekany args ['<', '>'] with _ | ⟨i, r⟩ <;> rw [hpk] at h
    · simp at h
    · simp only [] at h
      split at h
      · simp at h
      · split at h
        · split at h
          · simp at h
          · exact ih _ _ h
        · split at h
          · simp at h
          · exact ih _ _ h

/-- C9 amended: `parseexec` collapses to the nil node (with a nil error)
exactly when the raw command substring — the prefix before the first
unquoted `|`/`&`/`;` — is empty, in both directions: an empty substring
yields nil, and a (nil, nil-error) result only arises from an empty
substring (a non-empty substring yields an `Exec`, a `Redir`, or an error).
For EVERY input whose non-empty substring holds no unquoted `<`/`>` and
whose word list is empty after quoting and glob expansion, the parser
produces `Exec{args: []}` with no error — e.g. the line `''` — and the
executor treats `Exec{[]}` as a no-op success (nothing spawned, nil
result). -/
theorem parseexec_nil_iff_empty_substring :
    (∀ (g : GlobFn) (ln : Str), (execCut ln).1 = [] →
      parseexec g ln = ((.nil, none), (execCut ln).2)) ∧
    (∀ (g : GlobFn) (ln : Str), (parseexec g ln).1 = (.nil, none) →
      (execCut ln).1 = []) ∧
    (∀ (g : GlobFn) (ln : Str),
      (execCut ln).1 ≠ [] → peekany (execCut ln).1 ['<', '>'] = none →
      fields g (execCut ln).1 = [] →
      (parseexec g ln).1 = (Cmd.exec [], none)) ∧
    (parse000 env0 g0 (str "''") []).cmd = .exec [] ∧
    (parse000 env0 g0 (str "''") []).err = none ∧
    (∀ env : Env, run000 env (.exec []) = ([], none)) := by
  refine ⟨?_, ?_, ?_, by decide, by decide, fun _ => rfl⟩
  · intro g ln h
    simp [parseexec, h]
  · intro g ln h
    by_cases hc : (execCut ln).1 = []
    · exact hc
    · exfalso
      rw [parseexec] at h
      simp only [if_neg hc] at h
      rcases hpk : peekany (execCut ln).1 ['<', '>'] with _ | p <;> rw [hpk] at h
      · simp at h
      · exact parseredirsAux_ne_nil_ok g _ _ _ h
  · intro g ln h1 h2 h3
    simp [parseexec, h1, h2, h3]

/-- Witness for C9 at concrete inputs: the empty line collapses to nil, and
the quoted-empty line `''` parses to an `Exec` with zero argument words. -/
theorem parseexec_nil_iff_empty_substring_witness :
    parseexec g0 [] = ((.nil, none), (execCut []).2) ∧
    (parseexec g0 (str "''")).1 = (Cmd.exec [], none) :=
  ⟨parseexec_nil_iff_empty_substring.1 g0 [] (by decide),
   parseexec_nil_iff_empty_substring.2.2.1 g0 (str "''") (by decide) (by decide)
     (by decide)⟩

/-- C4 counterexample to "inside single quotes a backslash is copied
literally with NO escaping": on `'\' x` the code's backslash inside quotes
also escapes the following quote, which therefore does not close the span:
the code yields the single word `\' x` while the claimed reading yields the
two words `\` and `x`. -/
theorem fields_quoted_backslash_cex :
    fieldsCore (str "'\\' x") ≠ fieldsSpecACore (str "'\\' x") := by decide

/-- C7 counterexample: by the claim's wording, `peek("\", '\')` should
return index 0 (the backslash occurrence is not quoted and nothing precedes
it), but the scanner consumes every backslash to set its escape flag and can
never find one: the code returns "not found". -/
theorem peek_never_finds_backslash_cex :
    peek (str "\\") '\\' ≠ peekSpecA (str "\\") '\\' := by decide

/-- C8 counterexample: a line ending in an ESCAPED backslash (`a\\`, an even
run of trailing backslashes) still triggers line continuation, because the
code only tests `strings.HasSuffix(ln, "\\")`: given next line `b` the code
consumes it and produces `a\b`, while the claimed reading leaves the line
alone. -/
theorem contLoop_escaped_backslash_cex :
    contLoop (str "a\\\\") [str "b"] ≠ contLoopSpec (str "a\\\\") [str "b"] := by decide

theorem stateQ_zero (q : Bool) (ln : Str) : stateQ q ln 0 = q := by
  cases ln <;> rfl

theorem stateE_zero (e : Bool) (ln : Str) : stateE e ln 0 = e := by
  cases ln <;> rfl

theorem stateQ_cons_succ (q : Bool) (r : Char) (rest : Str) (i : Nat) :
    stateQ q (r :: rest) (i + 1) = stateQ (if r = '\'' then !q else q) rest i := rfl

theorem stateE_cons_succ (e : Bool) (r : Char) (rest : Str) (i : Nat) :
    stateE e (r :: rest) (i + 1) =
      stateE (if r = '\\' then true else if r = '\'' then e else false) rest i := rfl

theorem find?_range_succ (n : Nat) (p : Nat → Bool) :
    (List.range (n + 1)).find? p =
      if p 0 then some 0 else ((List.range n).find? (fun i => p (i + 1))).map (· + 1) := by
  rw [List.range_succ_eq_map, List.find?_cons]
  by_cases h0 : p 0
  · simp [h0]
  · simp [h0, List.find?_map, Function.comp_def]

theorem peekL_special_none (ch : Char) (hch : ch = '\\' ∨ ch = '\'') :
    ∀ (ln : Str) (q e : Bool), peekL ln ch q e = none := by
  intro ln
  induction ln with
  | nil => intro q e; rfl
  | cons r rest ih =>
    intro q e
    by_cases h1 : r = '\\'
    · simp [peekL, h1, ih]
    · by_cases h2 : r = '\''
      · simp [peekL, h1, h2, ih]
      · have hne : ¬(r = ch ∧ q = false ∧ e = false) := by
          rintro ⟨hr, -, -⟩
          rcases hch with h | h <;> simp_all
        simp [peekL, h1, h2, hne, ih]

theorem peekL_eq_find (ch : Char) (h1 : ch ≠ '\\') (h2 : ch ≠ '\'') :
    ∀ (ln : Str) (q e : Bool),
      peekL ln ch q e = (List.range ln.length).find? (fun i =>
        (ln.getD i ' ' == ch) && !stateQ q ln i && !stateE e ln i) := by
  intro ln
  induction ln with
  | nil => intro q e; rfl
  | cons r rest ih =>
    intro q e
    rw [List.length_cons, find?_range_succ]
    have hb1 : ((r : Char) == ch) = (r == ch) := rfl
    by_cases hr1 : r = '\\'
    · subst hr1
      have hc : (('\\' : Char) == ch) = false := by
        simp only [beq_eq_false_iff_ne]
        exact fun h => h1 h.symm
      simp only [peekL, List.getD_cons_zero, List.getD_cons_succ, stateQ_cons_succ,
        stateE_cons_succ, stateQ_zero, stateE_zero, hc, if_pos rfl, Bool.false_and,
        Bool.if_false_left]
      rw [ih q true]
      simp
    · by_cases hr2 : r = '\''
      · subst hr2
        have hc : (('\'' : Char) == ch) = false := by
          simp only [beq_eq_false_iff_ne]
          exact fun h => h2 h.symm
        simp only [peekL, List.getD_cons_zero, List.getD_cons_succ, stateQ_cons_succ,
          stateE_cons_succ, stateQ_zero, stateE_zero, hc, if_pos rfl, if_neg hr1,
          Bool.false_and, Bool.if_false_left]
        rw [ih (!q) e]
        simp
      · simp only [peekL, List.getD_cons_zero, List.getD_cons_succ, stateQ_cons_succ,
          stateE_cons_succ, stateQ_zero, stateE_zero, if_neg hr1, if_neg hr2]
        by_cases hm : r = ch ∧ q = false ∧ e = false
        · obtain ⟨ha, hb, hc⟩ := hm
          subst ha; subst hb; subst hc
          simp
        · rw [if_neg hm]
          rw [ih q false]
          have hp0 : ((r == ch) && !q && !e) = false := by
            by_cases ha : r = ch
            · subst ha
              cases q with
              | false =>
                cases e with
                | false => exact absurd ⟨rfl, rfl, rfl⟩ hm
                | true => simp
              | true => simp
            · simp [ha]
          simp [hp0]

theorem fieldsAux_eq_specB (l : Str) (q : Bool) (args : Args) (cur : Str) (d : Bool) :
    fieldsAux l args cur q false d = fieldsSpecB l q args cur d := by
  induction l, q, args, cur, d using fieldsSpecB.induct with
  | case1 q args cur d => rfl
  | case2 args cur d => simp [fieldsAux, fieldsSpecB, pushCur]
  | case3 c rest args cur d ih =>
    simp only [fieldsAux, fieldsSpecB, if_pos rfl, if_true]
    simpa [List.append_assoc] using ih
  | case4 args cur d => simp [fieldsAux, fieldsSpecB, pushCur]
  | case5 c rest args cur d ih =>
    simp only [fieldsAux, fieldsSpecB]
    simpa using ih
  | case6 rest q args cur d ih => simp [fieldsAux, fieldsSpecB, ih]
  | case7 rest args cur d ih => simp [fieldsAux, fieldsSpecB, ih]
  | case8 rest args cur d ih =>
    by_cases hc : 0 < cur.length <;> simp [fieldsAux, fieldsSpecB, pushCur, hc] at ih ⊢ <;>
      exact ih
  | case9 c rest q args cur d h1 h2 h3 h4 h5 h6 h7 h8 ih =>
    have hbs : ¬ c = '\\' := by
      intro hc
      cases rest with
      | nil => cases q with
        | false => exact h3 hc rfl rfl
        | true => exact h1 hc rfl rfl
      | cons a b => cases q with
        | false => exact h4 a b hc rfl rfl
        | true => exact h2 a b hc rfl rfl
    have hq : ¬ c = '\'' := fun hc => h5 hc
    have hsp : ¬ c = ' ' := by
      intro hc
      cases q with
      | false => exact h7 hc rfl
      | true => exact h6 hc rfl
    simp [fieldsAux, fieldsSpecB, hbs, hq, hsp, h8, ih]
  | case10 c rest q args cur d h1 h2 h3 h4 h5 h6 h7 h8 ih =>
    have hbs : ¬ c = '\\' := by
      intro hc
      cases rest with
      | nil => cases q with
        | false => exact h3 hc rfl rfl
        | true => exact h1 hc rfl rfl
      | cons a b => cases q with
        | false => exact h4 a b hc rfl rfl
        | true => exact h2 a b hc rfl rfl
    have hq : ¬ c = '\'' := fun hc => h5 hc
    have hsp : ¬ c = ' ' := by
      intro hc
      cases q with
      | false => exact h7 hc rfl
      | true => exact h6 hc rfl
    simp [fieldsAux, fieldsSpecB, hbs, hq, hsp, h8, ih]

theorem parseredirsAux_modes (g : GlobFn) :
    ∀ (fuel : Nat) (args : Str) (st : RedirSt) (c : Cmd) (fIn fOut : GoFile),
      (st.outF.path ≠ [] → st.outF.mode = outMode) →
      (st.inF.path ≠ [] → st.inF.mode = inMode) →
      parseredirsAux g fuel args st = (.redir c fIn fOut, none) →
      (fOut.path ≠ [] → fOut.mode = outMode) ∧ (fIn.path ≠ [] → fIn.mode = inMode) := by
  intro fuel
  induction fuel with
  | zero =>
    intro args st c fIn fOut hOut hIn h
    simp only [parseredirsAux, Prod.mk.injEq, Cmd.redir.injEq] at h
    obtain ⟨⟨_, hi, ho⟩, _⟩ := h
    subst hi; subst ho
    exact ⟨hOut, hIn⟩
  | succ fuel ih =>
    intro args st c fIn fOut hOut hIn h
    rw [parseredirsAux] at h
    rcases hpk : peekany args ['<', '>'] with _ | ⟨i, r⟩
    · rw [hpk] at h
      simp only [Prod.mk.injEq, Cmd.redir.injEq] at h
      obtain ⟨⟨_, hi, ho⟩, _⟩ := h
      subst hi; subst ho
      exact ⟨hOut, hIn⟩
    · rw [hpk] at h
      simp only [] at h
      split at h
      · simp at h
      · split at h
        · split at h
          · simp at h
          · refine ih _ _ c fIn fOut (fun _ => rfl) ?_ h
            exact hIn
        · split at h
          · simp at h
          · refine ih _ _ c fIn fOut ?_ (fun _ => rfl) h
            exact hOut

/-- C4 amended: `fields` satisfies the claimed contract with one correction:
inside single quotes a backslash is copied literally AND also escapes the
following character (copied verbatim; a quote right after it does not close
the span).  The claim's two concrete examples hold as stated. -/
theorem fields_matches_amended_contract :
    (∀ s : Str, fieldsCore s = fieldsSpecBCore s) ∧
    fields g0 (str "'a b' c") = [str "a b", str "c"] ∧
    fields g0 (str "a\\ b") = [str "a b"] :=
  ⟨fun s => fieldsAux_eq_specB s false [] [] false, by decide, by decide⟩

/-- C7 amended: `peek(line, ch)` returns the index of the first occurrence
of `ch` — never found when `ch` is a backslash or a single quote — whose
quote parity is even (every quote character toggles, even after a
backslash) and whose escape state is off, where the escape state is set by
ANY backslash (even an escaped one), persists across quote characters, and
is cleared by any other character; "not found" otherwise. -/
theorem peek_eq_peekSpecB (ln : Str) (ch : Char) : peek ln ch = peekSpecB ln ch := by
  by_cases h1 : ch = '\\'
  · rw [peek, peekL_special_none ch (Or.inl h1)]
    symm
    rw [peekSpecB]
    refine List.find?_eq_none.mpr fun i _ => ?_
    subst h1
    simp
  · by_cases h2 : ch = '\''
    · rw [peek, peekL_special_none ch (Or.inr h2)]
      symm
      rw [peekSpecB]
      refine List.find?_eq_none.mpr fun i _ => ?_
      subst h2
      simp
    · rw [peek, peekL_eq_find ch h1 h2, peekSpecB]
      congr 1
      funext i
      have hc1 : (ch == '\\') = false := by simp [h1]
      have hc2 : (ch == '\'') = false := by simp [h2]
      simp [hc1, hc2]

/-- C8 amended: the continuation loop consumes some number `k` of physical
lines, each step stripping one trailing backslash (escaped or not) and
appending the next line; every consumed step was triggered by a trailing
backslash, and it stops exactly when the accumulated line no longer ends in
a backslash or the input is exhausted. -/
theorem contLoop_unescaped_characterization (ln : Str) (lines : List Str) :
    ∃ k, k ≤ lines.length ∧
      contLoop ln lines = (joinK ln lines k, lines.drop k) ∧
      (List.range k).all (fun j => endsBS (joinK ln lines j)) = true ∧
      (endsBS (joinK ln lines k) = false ∨ k = lines.length) := by
  induction lines generalizing ln with
  | nil => exact ⟨0, Nat.le_refl 0, rfl, rfl, Or.inr rfl⟩
  | cons l ls ih =>
    by_cases hb : ln.getLast? = some '\\'
    · obtain ⟨k, hk, hc, ha, he⟩ := ih (ln.dropLast ++ l)
      refine ⟨k + 1, Nat.succ_le_succ hk, ?_, ?_, ?_⟩
      · rw [joinK_cons_succ]
        simpa [contLoop, hb] using hc
      · rw [List.range_succ_eq_map]
        simp only [List.all_cons, List.all_map, Function.comp_def, Nat.succ_eq_add_one,
          Bool.and_eq_true, joinK_cons_succ]
        exact ⟨by simp [joinK, endsBS, hb], ha⟩
      · rw [joinK_cons_succ]
        rcases he with h1 | h1
        · exact Or.inl h1
        · exact Or.inr (by simp [h1])
    · refine ⟨0, Nat.zero_le _, ?_, rfl, Or.inl ?_⟩
      · simp [contLoop, hb, joinK]
      · simp [joinK, endsBS, hb]

/-- C10: doubled redirection operators parse identically to single ones
(spaces and repeats of the operator character after a redirection operator
are skipped before the target is read), and the output redirection mode is
always write-create-truncate (`O_WRONLY|O_CREATE|O_TRUNC`) — there is no
append mode — while input redirections always use `O_RDONLY`. -/
theorem parseredirs_skip_repeats_and_mode :
    parse000 env0 g0 (str "cmd >> f") [] = parse000 env0 g0 (str "cmd > f") [] ∧
    parse000 env0 g0 (str "cmd << f") [] = parse000 env0 g0 (str "cmd < f") [] ∧
    ∀ (g : GlobFn) (args : Str) (c : Cmd) (fIn fOut : GoFile),
      parseredirs g args = (.redir c fIn fOut, none) →
      (fOut.path ≠ [] → fOut.mode = outMode) ∧ (fIn.path ≠ [] → fIn.mode = inMode) := by
  refine ⟨by decide, by decide, ?_⟩
  intro g args c fIn fOut h
  exact parseredirsAux_modes g (args.length + 1) args ⟨.nil, ⟨[], 0⟩, ⟨[], 0⟩⟩ c fIn fOut
    (fun hp => absurd rfl hp) (fun hp => absurd rfl hp) h

/-- Witness for C10's mode invariant at a concrete input. -/
theorem parseredirs_skip_repeats_and_mode_witness :
    ((⟨str "f", outMode⟩ : GoFile).path ≠ [] → (⟨str "f", outMode⟩ : GoFile).mode = outMode) ∧
    ((⟨[], 0⟩ : GoFile).path ≠ [] → (⟨[], 0⟩ : GoFile).mode = inMode) :=
  parseredirs_skip_repeats_and_mode.2.2 g0 (str "cmd > f")
    (.exec [str "cmd"]) ⟨[], 0⟩ ⟨str "f", outMode⟩ (by decide)

end Rsh
